import Mathlib

/-!
Verification of the toggle cache and environment helpers of src/config.rs,
and of the growth ledger / stats aggregator exercised by
src/repo/test/stats.rs, against the specification in spec.md.
-/

/-- The poisoning panic tag, src/config.rs line 18. -/
def CACHED_ENV_TOGGLES_POISONED_MSG : String := "CachedEnvToggles map was poisoned"

/-- The process environment as seen through std::env::var_os / std::env::var:
a partial map from variable names to values. -/
abbrev Env := String → Option String

/-- Embeds CachedEnvToggles, src/config.rs lines 127-130. The HashMap behind
the Arc-RwLock is modelled as an association list; `poisoned` models the
poisoned state of the RwLock (a prior lock holder panicked mid-mutation). -/
structure CachedEnvToggles where
  poisoned : Bool
  map : List (String × Bool)

/-- HashMap::get on the association-list model of the toggle map. -/
def cacheLookup (key : String) : List (String × Bool) → Option Bool
  | [] => none
  | (k, v) :: rest => if k = key then some v else cacheLookup key rest

/-- HashMap::insert on the association-list model: replaces an existing
binding in place, otherwise adds a new binding. -/
def cacheInsert (key : String) (v : Bool) : List (String × Bool) → List (String × Bool)
  | [] => [(key, v)]
  | (k, w) :: rest =>
    if k = key then (key, v) :: rest else (k, w) :: cacheInsert key v rest

/-- Embeds CachedEnvToggles::enabled_in_env, src/config.rs lines 146-148:
the toggle is enabled iff the variable DISABLE_CMD_<KEY> (key upper-cased)
is absent from the environment. -/
def CachedEnvToggles.enabled_in_env (env : Env) (key : String) : Bool :=
  (env ("DISABLE_CMD_" ++ key.toUpper)).isNone

/-- Embeds CachedEnvToggles::enabled, src/config.rs lines 133-144. Taking the
read lock (and, on a cache miss, the write lock) calls `.expect` on the
poisoning tag, which aborts with that message: modelled as `Except.error`.
On a hit the cached value is returned unchanged; on a miss the value is
resolved from the environment, inserted under the key, and returned. -/
def CachedEnvToggles.enabled (env : Env) (tc : CachedEnvToggles) (key : String) :
    Except String (Bool × CachedEnvToggles) :=
  if tc.poisoned then Except.error CACHED_ENV_TOGGLES_POISONED_MSG
  else
    match cacheLookup key tc.map with
    | some v => Except.ok (v, tc)
    | none =>
      let e := CachedEnvToggles.enabled_in_env env key
      Except.ok (e, { tc with map := cacheInsert key e tc.map })

/-- The boolean component of a successful `enabled` call. -/
def enabledValue (env : Env) (tc : CachedEnvToggles) (key : String) : Option Bool :=
  match CachedEnvToggles.enabled env tc key with
  | Except.ok (v, _) => some v
  | Except.error _ => none

/-- Embeds get_env_value_or_default, src/config.rs lines 211-227: read the
variable; if it is absent use the default; otherwise parse it, and if the
parse fails use the default. The FromStr parser of the target type is
abstracted as a fallible function. -/
def get_env_value_or_default {T : Type} (env : Env) (parseFn : String → Option T)
    (key : String) (defaultVal : T) : T :=
  match env key with
  | none => defaultVal
  | some s =>
    match parseFn s with
    | some v => v
    | none => defaultVal

/-- Looking up the key just inserted finds the inserted value. -/
theorem cacheLookup_cacheInsert (key : String) (v : Bool) (m : List (String × Bool)) :
    cacheLookup key (cacheInsert key v m) = some v := by
  induction m with
  | nil => simp [cacheInsert, cacheLookup]
  | cons p rest ih =>
    obtain ⟨k, w⟩ := p
    by_cases hk : k = key
    · simp [cacheInsert, cacheLookup, hk]
    · simp [cacheInsert, cacheLookup, hk, ih]

/-- Inserting one key does not change the lookup of any other key. -/
theorem cacheLookup_cacheInsert_ne (k key : String) (hk : k ≠ key) (v : Bool)
    (m : List (String × Bool)) :
    cacheLookup k (cacheInsert key v m) = cacheLookup k m := by
  have hk2 : ¬(key = k) := fun h => hk h.symm
  induction m with
  | nil => simp [cacheInsert, cacheLookup, hk2]
  | cons p rest ih =>
    obtain ⟨k0, w⟩ := p
    by_cases h0 : k0 = key
    · subst h0
      simp [cacheInsert, cacheLookup, hk2]
    · simp [cacheInsert, cacheLookup, h0, ih]

/-- C1: on first resolution of a key (key not cached, cache healthy),
`enabled` consults the variable DISABLE_CMD_<KEY> with the key upper-cased:
if the variable is absent it returns true, if it is present it returns
false. -/
theorem enabled_first_resolution (env : Env) (tc : CachedEnvToggles) (key : String)
    (hp : tc.poisoned = false) (hc : cacheLookup key tc.map = none) :
    (env ("DISABLE_CMD_" ++ key.toUpper) = none →
      CachedEnvToggles.enabled env tc key =
        Except.ok (true, { tc with map := cacheInsert key true tc.map })) ∧
    (∀ s, env ("DISABLE_CMD_" ++ key.toUpper) = some s →
      CachedEnvToggles.enabled env tc key =
        Except.ok (false, { tc with map := cacheInsert key false tc.map })) := by
  constructor
  · intro h
    simp [CachedEnvToggles.enabled, hp, hc, CachedEnvToggles.enabled_in_env, h]
  · intro s h
    simp [CachedEnvToggles.enabled, hp, hc, CachedEnvToggles.enabled_in_env, h]

/-- C1 witness: with no environment variables set and an empty cache, the key
"grow" resolves to enabled. -/
theorem enabled_first_resolution_witness :
    CachedEnvToggles.enabled (fun _ => none) ⟨false, []⟩ "grow" =
      Except.ok (true, ⟨false, [("grow", true)]⟩) :=
  (enabled_first_resolution (fun _ => none) ⟨false, []⟩ "grow" rfl rfl).1 rfl

/-- C2: once `enabled` has returned a boolean for a key, every later
sequential call for that key returns the same boolean and leaves the cache
unchanged, whatever the environment says by then (the external signal may
have been added or removed in between). -/
theorem enabled_cached_stable (env env2 : Env) (tc tc2 : CachedEnvToggles)
    (key : String) (v : Bool)
    (h : CachedEnvToggles.enabled env tc key = Except.ok (v, tc2)) :
    CachedEnvToggles.enabled env2 tc2 key = Except.ok (v, tc2) := by
  by_cases hp : tc.poisoned
  · simp [CachedEnvToggles.enabled, hp] at h
  · rcases hl : cacheLookup key tc.map with _ | w
    · simp [CachedEnvToggles.enabled, hp, hl] at h
      obtain ⟨hv, htc⟩ := h
      subst htc
      simp [CachedEnvToggles.enabled, hp, cacheLookup_cacheInsert, hv]
    · simp [CachedEnvToggles.enabled, hp, hl] at h
      obtain ⟨hv, htc⟩ := h
      subst htc
      simp [CachedEnvToggles.enabled, hp, hl, hv]

/-- C2 witness: the key "grow" was resolved to true while no signal was set;
a later call with the disable signal now present still returns true from the
cache, leaving the cache unchanged. -/
theorem enabled_cached_stable_witness :
    CachedEnvToggles.enabled (fun _ => some "1") ⟨false, [("grow", true)]⟩ "grow" =
      Except.ok (true, ⟨false, [("grow", true)]⟩) :=
  enabled_cached_stable (fun _ => none) (fun _ => some "1")
    ⟨false, []⟩ ⟨false, [("grow", true)]⟩ "grow" true rfl

/-- C6: on a poisoned cache, `enabled` aborts with the tagged internal error
message and returns no boolean at all (neither a default nor a cached
value). -/
theorem enabled_poisoned (env : Env) (tc : CachedEnvToggles) (key : String)
    (hp : tc.poisoned = true) :
    CachedEnvToggles.enabled env tc key =
      Except.error CACHED_ENV_TOGGLES_POISONED_MSG := by
  simp [CachedEnvToggles.enabled, hp]

/-- C6 witness: a poisoned cache aborts the lookup of "grow" with the tagged
message, even though the key is cached. -/
theorem enabled_poisoned_witness :
    CachedEnvToggles.enabled (fun _ => none) ⟨true, [("grow", true)]⟩ "grow" =
      Except.error CACHED_ENV_TOGGLES_POISONED_MSG :=
  enabled_poisoned (fun _ => none) ⟨true, [("grow", true)]⟩ "grow" rfl

/-- C9: a successful `enabled` call leaves the cache mapping the key to the
returned boolean, and leaves the entry of every other key exactly as it
was. -/
theorem enabled_frame (env : Env) (tc tc2 : CachedEnvToggles) (key : String) (v : Bool)
    (h : CachedEnvToggles.enabled env tc key = Except.ok (v, tc2)) :
    cacheLookup key tc2.map = some v ∧
    ∀ k, k ≠ key → cacheLookup k tc2.map = cacheLookup k tc.map := by
  by_cases hp : tc.poisoned
  · simp [CachedEnvToggles.enabled, hp] at h
  · rcases hl : cacheLookup key tc.map with _ | w
    · simp [CachedEnvToggles.enabled, hp, hl] at h
      obtain ⟨hv, htc⟩ := h
      subst htc
      constructor
      · simp [cacheLookup_cacheInsert, hv]
      · intro k hk
        simp [cacheLookup_cacheInsert_ne k key hk]
    · simp [CachedEnvToggles.enabled, hp, hl] at h
      obtain ⟨hv, htc⟩ := h
      subst htc
      exact ⟨hv ▸ hl, fun k _ => rfl⟩

/-- C9 witness: resolving "grow" on an empty healthy cache leaves "grow"
cached as true and leaves the (absent) entry of "top" untouched. -/
theorem enabled_frame_witness :
    cacheLookup "grow" [("grow", true)] = some true ∧
    cacheLookup "top" [("grow", true)] = cacheLookup "top" [] := by
  have h := enabled_frame (fun _ => none) ⟨false, []⟩ ⟨false, [("grow", true)]⟩
    "grow" true rfl
  exact ⟨h.1, h.2 "top" (by decide)⟩

/-- C5 counterexample: the disable variable for "grow" is present but holds
the empty string (a malformed value); `enabled` returns false, not the true
the claim requires: presence alone disables, the value is never parsed. -/
theorem enabled_malformed_signal_counterexample :
    CachedEnvToggles.enabled (fun _ => some "") ⟨false, []⟩ "grow" =
      Except.ok (false, ⟨false, [("grow", false)]⟩) := rfl

/-- C5 amended: when the disable variable is present at first resolution,
`enabled` returns false whatever the variable's value is (empty or
unparsable included); the value is never inspected, and only absence of the
variable yields true. -/
theorem enabled_present_signal_any_value (env : Env) (tc : CachedEnvToggles)
    (key : String) (s : String)
    (hp : tc.poisoned = false) (hc : cacheLookup key tc.map = none)
    (hs : env ("DISABLE_CMD_" ++ key.toUpper) = some s) :
    CachedEnvToggles.enabled env tc key =
      Except.ok (false, { tc with map := cacheInsert key false tc.map }) := by
  simp [CachedEnvToggles.enabled, hp, hc, CachedEnvToggles.enabled_in_env, hs]

/-- C5 amended witness: every variable holds the empty string; the key "grow"
resolves to disabled. -/
theorem enabled_present_signal_any_value_witness :
    CachedEnvToggles.enabled (fun _ => some "") ⟨false, []⟩ "grow" =
      Except.ok (false, ⟨false, [("grow", false)]⟩) :=
  enabled_present_signal_any_value (fun _ => some "") ⟨false, []⟩ "grow" "" rfl rfl rfl

/-- Packing a valid codepoint and unpacking it round-trips. -/
theorem char_toNat_ofNat {n : Nat} (h : n.isValidChar) : (Char.ofNat n).toNat = n := by
  unfold Char.ofNat
  rw [dif_pos h]
  rfl

/-- Char.toUpper is idempotent: an upper-cased character is no longer in the
lower-case latin range, so a second pass leaves it alone. -/
theorem char_toUpper_toUpper (c : Char) : c.toUpper.toUpper = c.toUpper := by
  have expand : ∀ d : Char, d.toUpper =
      if d.toNat >= 97 ∧ d.toNat <= 122 then Char.ofNat (d.toNat - 32) else d :=
    fun d => rfl
  by_cases h : c.toNat >= 97 ∧ c.toNat <= 122
  · have hv : (c.toNat - 32).isValidChar := Or.inl (by omega)
    have ht : (Char.ofNat (c.toNat - 32)).toNat = c.toNat - 32 := char_toNat_ofNat hv
    rw [expand c, if_pos h, expand, ht, if_neg (by omega)]
  · rw [expand c, if_neg h, expand c, if_neg h]

/-- String.toUpper is idempotent. -/
theorem string_toUpper_toUpper (s : String) : s.toUpper.toUpper = s.toUpper := by
  have lists : ∀ l : List Char,
      List.map Char.toUpper (List.map Char.toUpper l) = List.map Char.toUpper l := by
    intro l
    induction l with
    | nil => rfl
    | cons c t ih => simp [char_toUpper_toUpper c, ih]
  simp only [String.toUpper, String.map_eq]
  exact congrArg String.mk (lists s.data)

/-- The derived variable name is the same for a key and for its upper-cased
spelling, so the environment resolution of the two spellings agrees. -/
theorem enabled_in_env_toUpper (env : Env) (key : String) :
    CachedEnvToggles.enabled_in_env env key.toUpper =
      CachedEnvToggles.enabled_in_env env key := by
  unfold CachedEnvToggles.enabled_in_env
  rw [string_toUpper_toUpper]

/-- Every entry of the toggle map agrees with its environment resolution:
the invariant every cache state reachable under a fixed environment
satisfies. -/
def cacheConsistent (env : Env) (m : List (String × Bool)) : Prop :=
  ∀ k v, cacheLookup k m = some v → v = CachedEnvToggles.enabled_in_env env k

/-- On a healthy, environment-consistent cache, the boolean `enabled` returns
is exactly the environment resolution of the key, cached or not. -/
theorem enabledValue_of_consistent (env : Env) (tc : CachedEnvToggles) (key : String)
    (hp : tc.poisoned = false) (hcons : cacheConsistent env tc.map) :
    enabledValue env tc key = some (CachedEnvToggles.enabled_in_env env key) := by
  rcases hl : cacheLookup key tc.map with _ | w
  · simp [enabledValue, CachedEnvToggles.enabled, hp, hl]
  · simp [enabledValue, CachedEnvToggles.enabled, hp, hl, hcons key w hl]

/-- C7 amended: under a fixed environment, on a healthy cache whose entries
agree with that environment (as every cache reachable under it does), a key
and its upper-cased spelling yield the same boolean — both resolve the
variable DISABLE_CMD_<KEY>. The two spellings are nevertheless distinct,
case-sensitive cache entries (see the counterexample). -/
theorem enabled_case_insensitive_value (env : Env) (tc : CachedEnvToggles)
    (key : String) (hp : tc.poisoned = false) (hcons : cacheConsistent env tc.map) :
    enabledValue env tc key.toUpper = enabledValue env tc key := by
  rw [enabledValue_of_consistent env tc key.toUpper hp hcons,
    enabledValue_of_consistent env tc key hp hcons,
    enabled_in_env_toUpper]

/-- C7 witness: on an empty healthy cache with no variables set, "grow" and
its upper-cased spelling agree. -/
theorem enabled_case_insensitive_value_witness :
    enabledValue (fun _ => none) ⟨false, []⟩ "grow".toUpper =
      enabledValue (fun _ => none) ⟨false, []⟩ "grow" :=
  enabled_case_insensitive_value (fun _ => none) ⟨false, []⟩ "grow" rfl
    (by intro k v h; simp [cacheLookup] at h)

/-- C7 counterexample: the cache is case-sensitive. Resolving "a" and then
"A" on an initially empty cache stores two separate entries, one per
spelling — the two spellings do not denote one unique toggle within the
cache. -/
theorem enabled_case_sensitive_entries_counterexample :
    CachedEnvToggles.enabled (fun _ => none) ⟨false, []⟩ "a" =
      Except.ok (true, ⟨false, [("a", true)]⟩) ∧
    CachedEnvToggles.enabled (fun _ => none) ⟨false, [("a", true)]⟩ "A" =
      Except.ok (true, ⟨false, [("a", true), ("A", true)]⟩) := ⟨rfl, rfl⟩

/-- C10: get_env_value_or_default is total and never surfaces an error: it
returns the parsed value when the variable is present and parses, and the
supplied default both when the variable is absent and when the parse
fails. -/
theorem get_env_value_or_default_total (T : Type) (env : Env)
    (parseFn : String → Option T) (key : String) (defaultVal : T) :
    (env key = none →
      get_env_value_or_default env parseFn key defaultVal = defaultVal) ∧
    (∀ s v, env key = some s → parseFn s = some v →
      get_env_value_or_default env parseFn key defaultVal = v) ∧
    (∀ s, env key = some s → parseFn s = none →
      get_env_value_or_default env parseFn key defaultVal = defaultVal) := by
  refine ⟨?_, ?_, ?_⟩
  · intro h
    simp [get_env_value_or_default, h]
  · intro s v hs hv
    simp [get_env_value_or_default, hs, hv]
  · intro s hs hv
    simp [get_env_value_or_default, hs, hv]

/-- C10 witness: with a parser accepting only "25", TOP_LIMIT unset falls
back to the default 10; set to "25" the parsed value 25 is returned; set to
"abc", which the parser rejects, it falls back to 10. -/
theorem get_env_value_or_default_total_witness :
    get_env_value_or_default (fun _ => none)
      (fun s => if s = "25" then some 25 else none) "TOP_LIMIT" 10 = 10 ∧
    get_env_value_or_default (fun _ => some "25")
      (fun s => if s = "25" then some 25 else none) "TOP_LIMIT" 10 = 25 ∧
    get_env_value_or_default (fun _ => some "abc")
      (fun s => if s = "25" then some 25 else none) "TOP_LIMIT" 10 = 10 :=
  ⟨(get_env_value_or_default_total Nat (fun _ => none)
      (fun s => if s = "25" then some 25 else none) "TOP_LIMIT" 10).1 rfl,
   (get_env_value_or_default_total Nat (fun _ => some "25")
      (fun s => if s = "25" then some 25 else none) "TOP_LIMIT" 10).2.1 "25" 25 rfl
      (by simp),
   (get_env_value_or_default_total Nat (fun _ => some "abc")
      (fun s => if s = "25" then some 25 else none) "TOP_LIMIT" 10).2.2 "abc" rfl
      (by simp)⟩

/-- Modelled from the spec: the durable growth-record table (spec.md section
3) behind Dicks::create_or_grow and PersonalStatsRepo::get, whose SQL
implementation is not under src (src holds only its test,
src/repo/test/stats.rs). One row per (UserId, ChatId) pair holding the
accumulated integer length, as an association list. -/
abbrev GrowthStore := List ((Nat × Int) × Int)

/-- The stored accumulated length of the (user, chat) row, if the row
exists. -/
def storedLength : GrowthStore → Nat → Int → Option Int
  | [], _, _ => none
  | ((u, c), len) :: rest, user, chat =>
    if u = user ∧ c = chat then some len else storedLength rest user chat

/-- Modelled from the spec: Dicks::create_or_grow (spec.md section 4.2),
whose SQL implementation is not under src. A single atomic upsert: if no row
exists for (user, chat) a row with length = delta is created, otherwise the
row's length is incremented by delta; the new accumulated length is
returned. -/
def Dicks.create_or_grow : GrowthStore → Nat → Int → Int → GrowthStore × Int
  | [], user, chat, delta => ([((user, chat), delta)], delta)
  | ((u, c), len) :: rest, user, chat, delta =>
    if u = user ∧ c = chat then
      (((u, c), len + delta) :: rest, len + delta)
    else
      (((u, c), len) :: (Dicks.create_or_grow rest user chat delta).1,
        (Dicks.create_or_grow rest user chat delta).2)

/-- Modelled from the spec: PersonalStats (spec.md section 3): count of the
user's chats, maximum accumulated length, total accumulated length. -/
structure PersonalStats where
  chats : Nat
  max_length : Int
  total_length : Int

/-- The accumulated lengths of all rows of the given user, in store order. -/
def userLengths : GrowthStore → Nat → List Int
  | [], _ => []
  | ((u, _), len) :: rest, user =>
    if u = user then len :: userLengths rest user else userLengths rest user

/-- The maximum of a list of lengths, 0 if the list is empty. -/
def maxOrZero : List Int → Int
  | [] => 0
  | [x] => x
  | x :: rest => max x (maxOrZero rest)

/-- Modelled from the spec: PersonalStatsRepo::get (spec.md section 4.3),
whose SQL implementation is not under src. Scans all growth records of the
user and computes chats = count of matching rows, max_length = maximum
length among them (0 if none), total_length = sum of the lengths. -/
def PersonalStatsRepo.get (store : GrowthStore) (user : Nat) : PersonalStats :=
  { chats := (userLengths store user).length,
    max_length := maxOrZero (userLengths store user),
    total_length := (userLengths store user).sum }

/-- A sequence of create_or_grow calls (user, chat, delta), applied in
order. -/
def applyOps : GrowthStore → List (Nat × Int × Int) → GrowthStore
  | store, [] => store
  | store, (user, chat, delta) :: rest =>
    applyOps (Dicks.create_or_grow store user chat delta).1 rest

/-- create_or_grow on an absent row appends that row with length = delta and
returns delta. -/
theorem create_or_grow_absent (store : GrowthStore) (user : Nat) (chat : Int)
    (delta : Int) (h : storedLength store user chat = none) :
    Dicks.create_or_grow store user chat delta =
      (store ++ [((user, chat), delta)], delta) := by
  induction store with
  | nil => rfl
  | cons p rest ih =>
    obtain ⟨⟨u, c⟩, len⟩ := p
    by_cases hc : u = user ∧ c = chat
    · simp [storedLength, hc] at h
    · simp [storedLength, hc] at h
      simp [Dicks.create_or_grow, hc, ih h]

/-- create_or_grow on an existing row leaves its stored length incremented by
delta. -/
theorem create_or_grow_present (store : GrowthStore) (user : Nat) (chat : Int)
    (delta len : Int) (h : storedLength store user chat = some len) :
    storedLength (Dicks.create_or_grow store user chat delta).1 user chat =
      some (len + delta) := by
  induction store with
  | nil => simp [storedLength] at h
  | cons p rest ih =>
    obtain ⟨⟨u, c⟩, l⟩ := p
    by_cases hc : u = user ∧ c = chat
    · simp [storedLength, hc] at h
      simp [Dicks.create_or_grow, storedLength, hc, h]
    · simp [storedLength, hc] at h
      simp [Dicks.create_or_grow, storedLength, hc, ih h]

/-- A row absent on the left of an append is looked up on the right. -/
theorem storedLength_append (store t : GrowthStore) (user : Nat) (chat : Int)
    (h : storedLength store user chat = none) :
    storedLength (store ++ t) user chat = storedLength t user chat := by
  induction store with
  | nil => rfl
  | cons p rest ih =>
    obtain ⟨⟨u, c⟩, l⟩ := p
    by_cases hc : u = user ∧ c = chat
    · simp [storedLength, hc] at h
    · simp [storedLength, hc] at h
      simp [storedLength, hc, ih h]

/-- C8: two create_or_grow calls of +10 and +20 for the same (user, chat)
pair starting from no row for that pair leave its stored length at exactly
30 in both execution orders. The spec (sections 4.2 and 5) makes each call
one atomic step of the durable store, so an interleaving of the two calls is
one of the two orders. -/
theorem create_or_grow_no_lost_update (store : GrowthStore) (u : Nat) (c : Int)
    (h : storedLength store u c = none) :
    storedLength
      (Dicks.create_or_grow (Dicks.create_or_grow store u c 10).1 u c 20).1 u c =
      some 30 ∧
    storedLength
      (Dicks.create_or_grow (Dicks.create_or_grow store u c 20).1 u c 10).1 u c =
      some 30 := by
  have h10 : storedLength (store ++ [((u, c), (10 : Int))]) u c = some 10 := by
    rw [storedLength_append store _ u c h]
    simp [storedLength]
  have h20 : storedLength (store ++ [((u, c), (20 : Int))]) u c = some 20 := by
    rw [storedLength_append store _ u c h]
    simp [storedLength]
  constructor
  · rw [create_or_grow_absent store u c 10 h]
    have := create_or_grow_present (store ++ [((u, c), 10)]) u c 20 10 h10
    simpa using this
  · rw [create_or_grow_absent store u c 20 h]
    have := create_or_grow_present (store ++ [((u, c), 20)]) u c 10 20 h20
    simpa using this

/-- C8 witness: from the empty store, both orders of the +10 and +20 calls
for user 0 in chat 0 leave the stored length at 30. -/
theorem create_or_grow_no_lost_update_witness :
    storedLength
      (Dicks.create_or_grow (Dicks.create_or_grow [] 0 0 10).1 0 0 20).1 0 0 =
      some 30 ∧
    storedLength
      (Dicks.create_or_grow (Dicks.create_or_grow [] 0 0 20).1 0 0 10).1 0 0 =
      some 30 :=
  create_or_grow_no_lost_update [] 0 0 rfl

/-- The user has no growth records in the store. -/
def hasNoRecords (store : GrowthStore) (user : Nat) : Prop :=
  ∀ p ∈ store, p.1.1 ≠ user

/-- A user with no records has no stored row in any chat. -/
theorem storedLength_of_hasNoRecords (store : GrowthStore) (user : Nat) (chat : Int)
    (h : hasNoRecords store user) : storedLength store user chat = none := by
  induction store with
  | nil => rfl
  | cons p rest ih =>
    obtain ⟨⟨u, c⟩, len⟩ := p
    have hu : u ≠ user := h ((u, c), len) (by simp)
    have : ∀ q ∈ rest, q.1.1 ≠ user := fun q hq => h q (by simp [hq])
    simp [storedLength, ih this]
    exact fun h0 => absurd h0 hu

/-- userLengths distributes over append. -/
theorem userLengths_append (s t : GrowthStore) (user : Nat) :
    userLengths (s ++ t) user = userLengths s user ++ userLengths t user := by
  induction s with
  | nil => rfl
  | cons p rest ih =>
    obtain ⟨⟨u, c⟩, len⟩ := p
    by_cases hu : u = user
    · simp [userLengths, hu, ih]
    · simp [userLengths, hu, ih]

/-- A user with no records has no lengths. -/
theorem userLengths_of_hasNoRecords (store : GrowthStore) (user : Nat)
    (h : hasNoRecords store user) : userLengths store user = [] := by
  induction store with
  | nil => rfl
  | cons p rest ih =>
    obtain ⟨⟨u, c⟩, len⟩ := p
    have hu : u ≠ user := h ((u, c), len) (by simp)
    have : ∀ q ∈ rest, q.1.1 ≠ user := fun q hq => h q (by simp [hq])
    simp [userLengths, hu, ih this]

/-- C3: starting from a store holding no records of user U, growing by 10 in
chat C1 and then by 20 in a different chat C2 makes get return chats = 2,
max_length = 20, total_length = 30. -/
theorem stats_after_two_grows (store : GrowthStore) (U : Nat) (C1 C2 : Int)
    (hU : hasNoRecords store U) (hC : C1 ≠ C2) :
    PersonalStatsRepo.get
      (Dicks.create_or_grow (Dicks.create_or_grow store U C1 10).1 U C2 20).1 U =
      ⟨2, 20, 30⟩ := by
  have hn1 : storedLength store U C1 = none := storedLength_of_hasNoRecords store U C1 hU
  rw [create_or_grow_absent store U C1 10 hn1]
  have hn2 : storedLength (store ++ [((U, C1), 10)]) U C2 = none := by
    rw [storedLength_append store _ U C2 (storedLength_of_hasNoRecords store U C2 hU)]
    simp [storedLength, hC]
  rw [create_or_grow_absent _ U C2 20 hn2]
  have hu0 : userLengths store U = [] := userLengths_of_hasNoRecords store U hU
  simp [PersonalStatsRepo.get, userLengths_append, hu0, userLengths, maxOrZero]

/-- C3 witness: from the empty store, user 0 growing 10 in chat 0 and 20 in
chat 1 gets stats (2, 20, 30). -/
theorem stats_after_two_grows_witness :
    PersonalStatsRepo.get
      (Dicks.create_or_grow (Dicks.create_or_grow [] 0 0 10).1 0 1 20).1 0 =
      ⟨2, 20, 30⟩ :=
  stats_after_two_grows [] 0 0 1 (by intro p hp; simp at hp) (by decide)

/-- create_or_grow with a non-negative delta keeps every stored length
non-negative. -/
theorem create_or_grow_nonneg (store : GrowthStore) (user : Nat) (chat : Int)
    (delta : Int) (hs : ∀ p ∈ store, 0 ≤ p.2) (hd : 0 ≤ delta) :
    ∀ p ∈ (Dicks.create_or_grow store user chat delta).1, 0 ≤ p.2 := by
  induction store with
  | nil =>
    intro p hp
    simp [Dicks.create_or_grow] at hp
    simp [hp, hd]
  | cons q rest ih =>
    obtain ⟨⟨u, c⟩, len⟩ := q
    have hlen : 0 ≤ len := hs ((u, c), len) (by simp)
    have hrest : ∀ p ∈ rest, 0 ≤ p.2 := fun p hp => hs p (by simp [hp])
    intro p hp
    by_cases hc : u = user ∧ c = chat
    · simp [Dicks.create_or_grow, hc] at hp
      rcases hp with hp | hp
      · simp [hp]
        omega
      · exact hrest p hp
    · simp [Dicks.create_or_grow, hc] at hp
      rcases hp with hp | hp
      · simp [hp, hlen]
      · exact ih hrest p hp

/-- A sequence of non-negative create_or_grow calls keeps every stored
length non-negative. -/
theorem applyOps_nonneg (ops : List (Nat × Int × Int)) (store : GrowthStore)
    (hs : ∀ p ∈ store, 0 ≤ p.2) (hd : ∀ op ∈ ops, 0 ≤ op.2.2) :
    ∀ p ∈ applyOps store ops, 0 ≤ p.2 := by
  induction ops generalizing store with
  | nil => exact hs
  | cons op rest ih =>
    obtain ⟨user, chat, delta⟩ := op
    have h1 : (0 : Int) ≤ delta := hd (user, chat, delta) (by simp)
    have h2 : ∀ q ∈ rest, 0 ≤ q.2.2 := fun q hq => hd q (by simp [hq])
    exact ih _ (create_or_grow_nonneg store user chat delta hs h1) h2

/-- The lengths of one user's rows are among the stored lengths. -/
theorem userLengths_nonneg (store : GrowthStore) (user : Nat)
    (hs : ∀ p ∈ store, 0 ≤ p.2) : ∀ x ∈ userLengths store user, 0 ≤ x := by
  induction store with
  | nil => intro x hx; simp [userLengths] at hx
  | cons q rest ih =>
    obtain ⟨⟨u, c⟩, len⟩ := q
    have hlen : 0 ≤ len := hs ((u, c), len) (by simp)
    have hrest : ∀ p ∈ rest, 0 ≤ p.2 := fun p hp => hs p (by simp [hp])
    intro x hx
    by_cases hu : u = user
    · simp [userLengths, hu] at hx
      rcases hx with hx | hx
      · simp [hx, hlen]
      · exact ih hrest x hx
    · simp [userLengths, hu] at hx
      exact ih hrest x hx

/-- On a non-empty list of non-negative lengths, the maximum is at most the
sum. -/
theorem maxOrZero_le_sum (l : List Int) (hnn : ∀ x ∈ l, 0 ≤ x) (hne : l ≠ []) :
    maxOrZero l ≤ l.sum := by
  induction l with
  | nil => exact absurd rfl hne
  | cons x rest ih =>
    cases rest with
    | nil => simp [maxOrZero]
    | cons y t =>
      have hx : (0 : Int) ≤ x := hnn x (by simp)
      have hrest : ∀ z ∈ y :: t, 0 ≤ z := fun z hz => hnn z (by simp [hz])
      have hsum : (0 : Int) ≤ (y :: t).sum := List.sum_nonneg hrest
      have hmax : maxOrZero (y :: t) ≤ (y :: t).sum := ih hrest (by simp)
      rw [List.sum_cons] at hsum hmax
      simp only [maxOrZero, List.sum_cons]
      exact max_le (by omega) (by omega)

/-- C4 counterexample: the create-or-grow contract (spec.md section 4.2)
admits deltas of any sign; growing user 0 by 10 in chat 1 and by -5 in chat
2 gives chats = 2, max_length = 10, total_length = 5, violating
total_length >= max_length. -/
theorem stats_invariant_counterexample :
    1 ≤ (PersonalStatsRepo.get (applyOps [] [(0, 1, 10), (0, 2, -5)]) 0).chats ∧
    ¬((PersonalStatsRepo.get (applyOps [] [(0, 1, 10), (0, 2, -5)]) 0).max_length ≤
      (PersonalStatsRepo.get (applyOps [] [(0, 1, 10), (0, 2, -5)]) 0).total_length) := by
  decide

/-- C4 amended: after every sequence of create_or_grow calls with
non-negative deltas, a user with no growth records gets all-zero stats, and
whenever chats >= 1 the total length is at least the maximum length. -/
theorem stats_invariant (ops : List (Nat × Int × Int))
    (hd : ∀ op ∈ ops, 0 ≤ op.2.2) (user : Nat) :
    (hasNoRecords (applyOps [] ops) user →
      PersonalStatsRepo.get (applyOps [] ops) user = ⟨0, 0, 0⟩) ∧
    (1 ≤ (PersonalStatsRepo.get (applyOps [] ops) user).chats →
      (PersonalStatsRepo.get (applyOps [] ops) user).max_length ≤
        (PersonalStatsRepo.get (applyOps [] ops) user).total_length) := by
  constructor
  · intro h
    simp [PersonalStatsRepo.get, userLengths_of_hasNoRecords _ _ h, maxOrZero]
  · intro hchats
    have hnn : ∀ x ∈ userLengths (applyOps [] ops) user, 0 ≤ x :=
      userLengths_nonneg _ _ (applyOps_nonneg ops [] (by simp) hd)
    have hne : userLengths (applyOps [] ops) user ≠ [] := by
      intro h0
      simp [PersonalStatsRepo.get, h0] at hchats
    simpa [PersonalStatsRepo.get] using maxOrZero_le_sum _ hnn hne

/-- C4 witness: after growing user 0 by 7 in chat 5, user 1 still has
all-zero stats, and user 0 satisfies total_length >= max_length. -/
theorem stats_invariant_witness :
    PersonalStatsRepo.get (applyOps [] [(0, 5, 7)]) 1 = ⟨0, 0, 0⟩ ∧
    (PersonalStatsRepo.get (applyOps [] [(0, 5, 7)]) 0).max_length ≤
      (PersonalStatsRepo.get (applyOps [] [(0, 5, 7)]) 0).total_length :=
  ⟨(stats_invariant [(0, 5, 7)] (by decide) 1).1
      (by intro p hp; simp [applyOps, Dicks.create_or_grow] at hp; simp [hp]),
   (stats_invariant [(0, 5, 7)] (by decide) 0).2 (by decide)⟩
